import Mathlib

/-!
Shallow embedding of the constraint-evaluation core of `toml-describe`.

The repository contains two generations of the pipeline:

* the refactored modules `src/rustc.rs`, `src/manifest/compiler.rs` and
  `src/compiler.rs` (namespaces `Rustc`, `ManifestCompiler`, `Compiler` below);
* the older monolithic `src/lib.rs` (namespace `Lib` below).

External crates (`semver`'s version-range matcher, `cfg_expr`'s platform
predicate grammar, the TOML deserializer, the process environment) are
black-box collaborators per the spec: they are modelled as opaque records of
functions supplied to the core (a version requirement is its `matchesVersion` test (the Rust method is named matches);
a cfg expression is its `eval` function; the target database is a partial
lookup), and the `TARGET` environment variable is passed as an explicit
argument.  Rust `HashMap` iteration is modelled by a `List` in iteration
order; a Rust `panic!`/`expect`/`unwrap` aborting the evaluation is modelled
by `Except.error`, so that a run that panics returns no partial result.
-/

namespace Semver

/-- Model of `semver::Version` (major.minor.patch). -/
structure Version where
  major : Nat
  minor : Nat
  patch : Nat
deriving DecidableEq, Repr

/-- Black-box model of `semver::VersionReq`: the spec treats the version-range
grammar as an external capability, so a requirement is represented by its
`matchesVersion` test (the Rust method is named matches). -/
structure VersionReq where
  matchesVersion : Version → Bool

end Semver

namespace CfgExpr

/-- Black-box model of `cfg_expr::targets::TargetInfo` for a recognized
platform. -/
structure TargetInfo where
  triple : String
deriving DecidableEq, Repr

/-- Black-box model of a successfully parsed `cfg_expr::Expression`: the spec
treats the predicate grammar as external, so an expression is represented by
its boolean evaluation against a target. -/
structure Expression where
  eval : TargetInfo → Bool

/-- The call contract into the external `cfg_expr` crate: `Expression::parse`
(returning `none` exactly when the key is not a valid predicate expression)
and `get_builtin_target_by_triple` (returning `none` exactly when the triple
is not in the platform database). -/
structure Api where
  parseExpression : String → Option Expression
  get_builtin_target_by_triple : String → Option TargetInfo

end CfgExpr

namespace Rustc

/-- `VersionData` from `src/rustc.rs`: the toolchain descriptor (parsed
version plus the pre-release/nightly channel flag). -/
structure VersionData where
  version : Semver.Version
  nightly : Bool

end Rustc

namespace ManifestCompiler

/-- `Condition` from `src/manifest/compiler.rs`: an optional stable-channel
requirement `version` and an optional pre-release requirement
`nightly_version`, both defaulting to absent. -/
structure Condition where
  version : Option Semver.VersionReq
  nightly_version : Option Semver.VersionReq

/-- `Condition::check` from `src/manifest/compiler.rs` lines 43-55: on the
nightly channel only `nightly_version` is consulted (absent means false);
on the stable channel only `version` is consulted (absent means false). -/
def Condition.check (c : Condition) (rustc : Rustc.VersionData) : Bool :=
  if rustc.nightly then
    match c.nightly_version with
    | some v => v.matchesVersion rustc.version
    | none => false
  else
    match c.version with
    | some v => v.matchesVersion rustc.version
    | none => false

/-- `Constraint` from `src/manifest/compiler.rs`: either a platform-scoped
group (`Cfg`, a map from capability name to `Condition`, modelled as an
association list in iteration order) or a direct `Condition`. -/
inductive Constraint where
  | Cfg (m : List (String × Condition))
  | Condition (c : Condition)

/-- Errors with which `parse_compiler_checks` aborts (Rust panics):
`predicateError k` models the `expect` on `Expression::parse(k)` failing,
and `unknownTargetError t` models the `panic!` when
`get_builtin_target_by_triple` does not recognize the target triple. -/
inductive ParseError where
  | predicateError (key : String)
  | unknownTargetError (target : String)
deriving DecidableEq, Repr

/-- `parse_compiler_checks` from `src/manifest/compiler.rs` lines 65-94: the
`HashMap` of raw entries is consumed in iteration order; a direct `Condition`
entry is pushed unconditionally; a `Cfg` entry first parses its key as a
predicate expression (aborting on failure), then looks up the target triple
(aborting when unrecognized), and pushes its members exactly when the
predicate evaluates true.  The `TARGET` environment variable is the explicit
`target` argument; an abort returns `Except.error`, discarding any pairs
already accumulated. -/
def parse_compiler_checks (api : CfgExpr.Api) (target : String) :
    List (String × Constraint) → Except ParseError (List (String × Condition))
  | [] => .ok []
  | (k, .Condition con) :: rest =>
    (parse_compiler_checks api target rest).map (fun r => (k, con) :: r)
  | (k, .Cfg c) :: rest =>
    match api.parseExpression k with
    | none => .error (.predicateError k)
    | some cfg =>
      match api.get_builtin_target_by_triple target with
      | none => .error (.unknownTargetError target)
      | some tinfo =>
        if cfg.eval tinfo then
          (parse_compiler_checks api target rest).map (fun r => c ++ r)
        else
          parse_compiler_checks api target rest

end ManifestCompiler

namespace Compiler

open ManifestCompiler in
/-- The emission loop of `check` from `src/compiler.rs` lines 17-21: for each
flattened (name, Condition) pair in order, write the directive line
`cargo:rustc-cfg=<name>` exactly when the condition passes against the
toolchain descriptor. -/
def emitChecks (rustc : Rustc.VersionData) :
    List (String × Condition) → List String
  | [] => []
  | (name, condition) :: rest =>
    if condition.check rustc then
      ("cargo:rustc-cfg=" ++ name) :: emitChecks rustc rest
    else
      emitChecks rustc rest

open ManifestCompiler in
/-- `check` from `src/compiler.rs` lines 9-22, with reading `Cargo.toml` and
probing rustc (external collaborators) abstracted into the already-parsed
`checks` list and the descriptor argument: the output stream first receives
the line `cargo:rerun-if-changed=Cargo.toml`, then one directive per
satisfied condition. -/
def check (checks : List (String × Condition)) (rustc : Rustc.VersionData) :
    List String :=
  "cargo:rerun-if-changed=Cargo.toml" :: emitChecks rustc checks

end Compiler

namespace Lib

/-- `Condition` from `src/lib.rs` lines 23-28: an optional version
requirement and an optional override name `cfg` for the emitted flag. -/
structure Condition where
  version : Option Semver.VersionReq
  cfg : Option String

/-- `Condition::check` from `src/lib.rs` lines 30-37: satisfied iff a
`version` requirement is present and matches the rustc version (this older
generation has no channel flag in its descriptor). -/
def Condition.check (c : Condition) (rust_version : Semver.Version) : Bool :=
  match c.version with
  | some v => v.matchesVersion rust_version
  | none => false

/-- `Constraint` from `src/lib.rs` lines 39-44. -/
inductive Constraint where
  | Condition (c : Condition)
  | Cfg (m : List (String × Condition))

/-- `parse` from `src/lib.rs` lines 64-97 (after the TOML deserialization,
an external collaborator, has produced the entry list): a direct `Condition`
is pushed unconditionally; a `Cfg` key is parsed as a predicate expression
(the `unwrap` panic on failure is `predicateError`), but — unlike
`parse_compiler_checks` — an unrecognized target triple silently makes the
predicate evaluate to `false` (lines 79-86), so the group is skipped with no
error. -/
def parse (api : CfgExpr.Api) (target : String) :
    List (String × Constraint) →
      Except ManifestCompiler.ParseError (List (String × Condition))
  | [] => .ok []
  | (k, .Condition con) :: rest =>
    (parse api target rest).map (fun r => (k, con) :: r)
  | (k, .Cfg c) :: rest =>
    match api.parseExpression k with
    | none => .error (.predicateError k)
    | some cfg =>
      let res := match api.get_builtin_target_by_triple target with
        | some tinfo => cfg.eval tinfo
        | none => false
      if res then (parse api target rest).map (fun r => c ++ r)
      else parse api target rest

/-- The emission loop of `check` from `src/lib.rs` lines 128-140: for each
satisfied condition, the directive uses the override name `cfg` when present
and otherwise the name `compiler_support_<key>` derived from the capability
key. -/
def emitChecks (rust_version : Semver.Version) :
    List (String × Condition) → List String
  | [] => []
  | (name, condition) :: rest =>
    if condition.check rust_version then
      ("cargo:rustc-cfg=" ++ condition.cfg.getD ("compiler_support_" ++ name))
        :: emitChecks rust_version rest
    else
      emitChecks rust_version rest

end Lib

namespace ManifestCompiler

/-- Helper for stating theorems: an entry makes `parse_compiler_checks`
abort exactly when it is a `Cfg` entry whose key fails to parse as a
predicate, or a `Cfg` entry whose key parses while the target triple is not
in the platform database. -/
def entryBad (api : CfgExpr.Api) (target : String) :
    String × Constraint → Bool
  | (_, .Condition _) => false
  | (k, .Cfg _) =>
    match api.parseExpression k with
    | none => true
    | some _ => (api.get_builtin_target_by_triple target).isNone

/-- Helper for stating theorems: the pairs an entry contributes to the
flattened list when no entry aborts — a direct entry contributes its single
pair, a platform-scoped group contributes its members exactly when its
predicate evaluates true. -/
def entryContrib (api : CfgExpr.Api) (target : String) :
    String × Constraint → List (String × Condition)
  | (k, .Condition c) => [(k, c)]
  | (k, .Cfg m) =>
    match api.parseExpression k with
    | none => []
    | some cfg =>
      match api.get_builtin_target_by_triple target with
      | none => []
      | some tinfo => if cfg.eval tinfo then m else []

theorem parse_compiler_checks_ok_of_not_bad (api : CfgExpr.Api)
    (target : String) (l : List (String × Constraint))
    (h : ∀ x ∈ l, entryBad api target x = false) :
    parse_compiler_checks api target l =
      .ok (l.flatMap (entryContrib api target)) := by
  induction l with
  | nil => rfl
  | cons x rest ih =>
    obtain ⟨k, v⟩ := x
    have hx := h (k, v) (List.mem_cons_self _ _)
    have hrest : ∀ y ∈ rest, entryBad api target y = false :=
      fun y hy => h y (List.mem_cons_of_mem _ hy)
    cases v with
    | Condition c =>
      simp [parse_compiler_checks, ih hrest, entryContrib, Except.map]
    | Cfg m =>
      simp only [entryBad] at hx
      cases hp : api.parseExpression k with
      | none => rw [hp] at hx; exact absurd hx (by simp)
      | some cfg =>
        rw [hp] at hx
        cases ht : api.get_builtin_target_by_triple target with
        | none => rw [ht] at hx; exact absurd hx (by simp)
        | some tinfo =>
          by_cases he : cfg.eval tinfo = true
          · simp [parse_compiler_checks, hp, ht, he, ih hrest, entryContrib,
              Except.map]
          · simp [parse_compiler_checks, hp, ht, he, ih hrest, entryContrib,
              Except.map]

theorem parse_compiler_checks_error_iff (api : CfgExpr.Api)
    (target : String) (l : List (String × Constraint)) :
    (∃ e, parse_compiler_checks api target l = .error e) ↔
      ∃ x ∈ l, entryBad api target x = true := by
  induction l with
  | nil => simp [parse_compiler_checks]
  | cons x rest ih =>
    obtain ⟨k, v⟩ := x
    cases v with
    | Condition c =>
      simp only [parse_compiler_checks, List.mem_cons]
      constructor
      · rintro ⟨e, he⟩
        cases hr : parse_compiler_checks api target rest with
        | ok r => rw [hr] at he; simp [Except.map] at he
        | error e' =>
          obtain ⟨y, hy, hby⟩ := ih.mp ⟨e', hr⟩
          exact ⟨y, Or.inr hy, hby⟩
      · rintro ⟨y, hy, hby⟩
        rcases hy with hy | hy
        · rw [hy] at hby; simp [entryBad] at hby
        · obtain ⟨e, he⟩ := ih.mpr ⟨y, hy, hby⟩
          exact ⟨e, by rw [he]; rfl⟩
    | Cfg m =>
      simp only [parse_compiler_checks, List.mem_cons]
      cases hp : api.parseExpression k with
      | none =>
        constructor
        · intro _
          exact ⟨(k, .Cfg m), Or.inl rfl, by simp [entryBad, hp]⟩
        · intro _
          exact ⟨ParseError.predicateError k, rfl⟩
      | some cfg =>
        cases ht : api.get_builtin_target_by_triple target with
        | none =>
          constructor
          · intro _
            exact ⟨(k, .Cfg m), Or.inl rfl, by simp [entryBad, hp, ht]⟩
          · intro _
            exact ⟨ParseError.unknownTargetError target, rfl⟩
        | some tinfo =>
          by_cases he : cfg.eval tinfo = true
          · simp only [he, if_true]
            constructor
            · rintro ⟨e, hee⟩
              cases hr : parse_compiler_checks api target rest with
              | ok r => rw [hr] at hee; simp [Except.map] at hee
              | error e' =>
                obtain ⟨y, hy, hby⟩ := ih.mp ⟨e', hr⟩
                exact ⟨y, Or.inr hy, hby⟩
            · rintro ⟨y, hy, hby⟩
              rcases hy with hy | hy
              · rw [hy] at hby; simp [entryBad, hp, ht] at hby
              · obtain ⟨e, hee⟩ := ih.mpr ⟨y, hy, hby⟩
                exact ⟨e, by rw [hee]; rfl⟩
          · simp only [he, if_false]
            constructor
            · rintro ⟨e, hee⟩
              obtain ⟨y, hy, hby⟩ := ih.mp ⟨e, hee⟩
              exact ⟨y, Or.inr hy, hby⟩
            · rintro ⟨y, hy, hby⟩
              rcases hy with hy | hy
              · rw [hy] at hby; simp [entryBad, hp, ht] at hby
              · obtain ⟨e, hee⟩ := ih.mpr ⟨y, hy, hby⟩
                exact ⟨e, hee⟩

end ManifestCompiler

namespace Compiler

/-- The emission loop is extensionally the filter of the satisfied pairs
followed by formatting each kept name as a directive. -/
theorem emitChecks_eq_filter_map
    (rustc : Rustc.VersionData)
    (checks : List (String × ManifestCompiler.Condition)) :
    emitChecks rustc checks =
      (checks.filter (fun p => p.2.check rustc)).map
        (fun p => "cargo:rustc-cfg=" ++ p.1) := by
  induction checks with
  | nil => rfl
  | cons p rest ih =>
    obtain ⟨name, condition⟩ := p
    by_cases h : condition.check rustc = true
    · simp [emitChecks, h, ih, List.filter_cons]
    · simp [emitChecks, h, ih, List.filter_cons]

end Compiler

namespace ManifestCompiler

/-- When the target triple is recognized, a manifest holding a group whose
key fails to parse as a predicate always aborts specifically with a
`predicateError` (for some offending key — the first one reached). -/
theorem parse_error_is_predicateError_of_malformed (api : CfgExpr.Api)
    (target : String) (ti : CfgExpr.TargetInfo)
    (hti : api.get_builtin_target_by_triple target = some ti)
    (k : String) (m : List (String × Condition)) :
    ∀ l : List (String × Constraint), (k, Constraint.Cfg m) ∈ l →
      api.parseExpression k = none →
      ∃ k', api.parseExpression k' = none ∧
        parse_compiler_checks api target l =
          .error (.predicateError k') := by
  intro l
  induction l with
  | nil => intro hmem; cases hmem
  | cons x rest ih =>
    intro hmem hbad
    obtain ⟨k', v⟩ := x
    cases v with
    | Condition c =>
      have hmem' : (k, Constraint.Cfg m) ∈ rest := by
        rcases List.mem_cons.mp hmem with h | h
        · exact absurd (congrArg Prod.snd h) (by simp)
        · exact h
      obtain ⟨k'', hk'', he⟩ := ih hmem' hbad
      exact ⟨k'', hk'', by
        simp [parse_compiler_checks, he, Except.map]⟩
    | Cfg m' =>
      cases hp' : api.parseExpression k' with
      | none =>
        exact ⟨k', hp', by simp [parse_compiler_checks, hp']⟩
      | some cfg' =>
        have hmem' : (k, Constraint.Cfg m) ∈ rest := by
          rcases List.mem_cons.mp hmem with h | h
          · have h1 : k = k' := congrArg Prod.fst h
            rw [h1] at hbad
            rw [hbad] at hp'
            cases hp'
          · exact h
        obtain ⟨k'', hk'', he⟩ := ih hmem' hbad
        refine ⟨k'', hk'', ?_⟩
        by_cases heval : cfg'.eval ti = true
        · simp [parse_compiler_checks, hp', hti, heval, he, Except.map]
        · simp [parse_compiler_checks, hp', hti, heval, he, Except.map]

end ManifestCompiler

/-! Concrete fixtures used by witnesses and counterexamples. -/

/-- A version requirement matched by every version. -/
def reqAny : Semver.VersionReq := ⟨fun _ => true⟩

/-- A condition satisfied on both channels by every version. -/
def condAlways : ManifestCompiler.Condition := ⟨some reqAny, some reqAny⟩

/-- A stable-channel toolchain descriptor at version 1.0.0. -/
def stable100 : Rustc.VersionData := ⟨⟨1, 0, 0⟩, false⟩

/-- A cfg-expr api in which every key parses to an always-false predicate and
every triple is a recognized target. -/
def apiAllFalse : CfgExpr.Api :=
  ⟨fun _ => some ⟨fun _ => false⟩, fun t => some ⟨t⟩⟩

/-! Claim theorems. -/

/-- C1: `Condition::check` implements channel-dependent requirement
selection.  On a pre-release (nightly) toolchain the condition is satisfied
iff `nightly_version` is present and the toolchain version matches it — in
particular a missing `nightly_version` yields false even when `version` is
present and would match; on a stable toolchain it is satisfied iff `version`
is present and the toolchain version matches it. -/
theorem C1_condition_check_channel_selection
    (c : ManifestCompiler.Condition) (t : Rustc.VersionData) :
    (t.nightly = true →
      (c.check t = true ↔
        ∃ v, c.nightly_version = some v ∧ v.matchesVersion t.version = true)) ∧
    (t.nightly = false →
      (c.check t = true ↔
        ∃ v, c.version = some v ∧ v.matchesVersion t.version = true)) := by
  constructor
  · intro hn
    cases h : c.nightly_version with
    | none => simp [ManifestCompiler.Condition.check, hn, h]
    | some v => simp [ManifestCompiler.Condition.check, hn, h]
  · intro hn
    cases h : c.version with
    | none => simp [ManifestCompiler.Condition.check, hn, h]
    | some v => simp [ManifestCompiler.Condition.check, hn, h]

/-- Witness for C1: a condition with only a stable requirement (which would
match) is not satisfied by a nightly toolchain at version 1.0.0. -/
theorem C1_condition_check_channel_selection_witness :
    ManifestCompiler.Condition.check ⟨some reqAny, none⟩ ⟨⟨1, 0, 0⟩, true⟩
      = false := by
  have h :=
    (C1_condition_check_channel_selection ⟨some reqAny, none⟩
      ⟨⟨1, 0, 0⟩, true⟩).1 rfl
  simpa using h

/-- C9: a declared entry whose Condition has both requirement fields absent
is accepted by the parser without error — it is a legal declaration — and
such a Condition is satisfied by no toolchain descriptor whatsoever. -/
theorem C9_both_absent_legal_never_satisfied
    (api : CfgExpr.Api) (target : String) (n : String) :
    ManifestCompiler.parse_compiler_checks api target
        [(n, .Condition ⟨none, none⟩)] =
      .ok [(n, ⟨none, none⟩)] ∧
    ∀ t : Rustc.VersionData,
      ManifestCompiler.Condition.check ⟨none, none⟩ t = false := by
  refine ⟨rfl, fun t => ?_⟩
  cases hn : t.nightly <;> simp [ManifestCompiler.Condition.check, hn]

/-- C7: the enablement engine is a pure total filter: the emission loop of
`src/compiler.rs` produces exactly the directive for each pair whose
condition is satisfied, in the original order of the flattened list, with
duplicate names preserved as separate entries, and it is a total function
(no error on any input). -/
theorem C7_enablement_engine_is_filter
    (checks : List (String × ManifestCompiler.Condition))
    (rustc : Rustc.VersionData) :
    Compiler.emitChecks rustc checks =
      (checks.filter (fun p => p.2.check rustc)).map
        (fun p => "cargo:rustc-cfg=" ++ p.1) :=
  Compiler.emitChecks_eq_filter_map rustc checks

/-- C10: on every run, `check` from `src/compiler.rs` writes
`cargo:rerun-if-changed=Cargo.toml` as its first output line, before any
capability directive and regardless of whether any condition is satisfied
(the tail of the output is exactly the emission loop's directives, which may
be empty). -/
theorem C10_rerun_directive_first
    (checks : List (String × ManifestCompiler.Condition))
    (rustc : Rustc.VersionData) :
    (Compiler.check checks rustc).head? =
        some "cargo:rerun-if-changed=Cargo.toml" ∧
    (Compiler.check checks rustc).tail = Compiler.emitChecks rustc checks :=
  ⟨rfl, rfl⟩

/-- C3: a platform-scoped group whose predicate evaluates false against the
current target contributes zero entries: the parse of a manifest containing
the group equals the parse of the manifest with the group removed, so none
of the group's member pairs reaches the flattened list and no member
condition is ever evaluated against the toolchain descriptor downstream. -/
theorem C3_false_predicate_group_skipped (api : CfgExpr.Api) (target : String)
    (l1 l2 : List (String × ManifestCompiler.Constraint)) (k : String)
    (m : List (String × ManifestCompiler.Condition))
    (cfg : CfgExpr.Expression) (tinfo : CfgExpr.TargetInfo)
    (hp : api.parseExpression k = some cfg)
    (ht : api.get_builtin_target_by_triple target = some tinfo)
    (he : cfg.eval tinfo = false) :
    ManifestCompiler.parse_compiler_checks api target
        (l1 ++ (k, .Cfg m) :: l2) =
      ManifestCompiler.parse_compiler_checks api target (l1 ++ l2) := by
  induction l1 with
  | nil =>
    simp [ManifestCompiler.parse_compiler_checks, hp, ht, he]
  | cons x rest ih =>
    obtain ⟨k', v⟩ := x
    cases v with
    | Condition c =>
      simp only [List.cons_append, ManifestCompiler.parse_compiler_checks,
        List.append_eq]
      rw [ih]
    | Cfg m' =>
      simp only [List.cons_append, ManifestCompiler.parse_compiler_checks,
        List.append_eq]
      cases hp' : api.parseExpression k' with
      | none => rfl
      | some cfg' =>
        rw [ht]
        by_cases he' : cfg'.eval tinfo = true
        · simp only [he', if_true]
          rw [ih]
        · simp only [he', if_false]
          exact ih

/-- Witness for C3: with every predicate evaluating false and a recognized
target, a manifest holding one direct entry and one scoped group parses to
the same result as the manifest with the group removed. -/
theorem C3_false_predicate_group_skipped_witness :
    apiAllFalse.parseExpression "cfg(target_os = \"windows\")" =
        some ⟨fun _ => false⟩ ∧
    apiAllFalse.get_builtin_target_by_triple "x86_64-unknown-linux-gnu" =
        some ⟨"x86_64-unknown-linux-gnu"⟩ ∧
    CfgExpr.Expression.eval ⟨fun _ => false⟩ ⟨"x86_64-unknown-linux-gnu"⟩
        = false ∧
    ManifestCompiler.parse_compiler_checks apiAllFalse
        "x86_64-unknown-linux-gnu"
        ([("foo", .Condition condAlways)] ++
          ("cfg(target_os = \"windows\")", .Cfg [("bad", condAlways)]) :: []) =
      ManifestCompiler.parse_compiler_checks apiAllFalse
        "x86_64-unknown-linux-gnu" ([("foo", .Condition condAlways)] ++ []) :=
  ⟨rfl, rfl, rfl,
    C3_false_predicate_group_skipped apiAllFalse "x86_64-unknown-linux-gnu"
      [("foo", .Condition condAlways)] [] "cfg(target_os = \"windows\")"
      [("bad", condAlways)] ⟨fun _ => false⟩ ⟨"x86_64-unknown-linux-gnu"⟩
      rfl rfl rfl⟩

/-- A cfg-expr api with a linux-matching predicate under one key, an
always-false predicate under another, and the usual linux triple as the only
recognized target. -/
def demoApi : CfgExpr.Api where
  parseExpression := fun s =>
    if s == "cfg(target_os = \"linux\")" then
      some ⟨fun t => t.triple == "x86_64-unknown-linux-gnu"⟩
    else if s == "cfg(target_os = \"windows\")" then
      some ⟨fun _ => false⟩
    else none
  get_builtin_target_by_triple := fun s =>
    if s == "x86_64-unknown-linux-gnu" then some ⟨s⟩ else none

/-- The manifest of the repository's own `test_parse_cfg` test: a direct
entry, a linux-scoped group and a windows-scoped group. -/
def demoManifest : List (String × ManifestCompiler.Constraint) :=
  [("foo", .Condition condAlways),
   ("cfg(target_os = \"linux\")",
     .Cfg [("bar", condAlways), ("baz", condAlways)]),
   ("cfg(target_os = \"windows\")", .Cfg [("bad", condAlways)])]

/-- C6: the flattening step preserves manifest order.  When no entry aborts,
the flattened list is exactly the in-order concatenation of each entry's
contribution (`entryContrib`): a direct entry contributes its (name,
Condition) pair unconditionally, a platform-scoped group whose predicate
evaluates true contributes its member pairs in their original order (and an
unsatisfied group contributes nothing), so the flattened list's order is the
order in which the entries were iterated. -/
theorem C6_flatten_preserves_order (api : CfgExpr.Api) (target : String)
    (l : List (String × ManifestCompiler.Constraint))
    (h : ∀ x ∈ l, ManifestCompiler.entryBad api target x = false) :
    ManifestCompiler.parse_compiler_checks api target l =
      .ok (l.flatMap (ManifestCompiler.entryContrib api target)) :=
  ManifestCompiler.parse_compiler_checks_ok_of_not_bad api target l h

/-- Witness for C6: on the demo manifest with a linux target, the flattened
list is the direct entry followed by the linux group's members in order. -/
theorem C6_flatten_preserves_order_witness :
    (∀ x ∈ demoManifest,
      ManifestCompiler.entryBad demoApi "x86_64-unknown-linux-gnu" x
        = false) ∧
    ManifestCompiler.parse_compiler_checks demoApi "x86_64-unknown-linux-gnu"
        demoManifest =
      .ok [("foo", condAlways), ("bar", condAlways), ("baz", condAlways)] :=
  ⟨by decide,
   C6_flatten_preserves_order demoApi "x86_64-unknown-linux-gnu" demoManifest
     (by decide)⟩

/-- C4: a platform-scoped entry whose key is not a syntactically valid
predicate expression makes the whole evaluation fail: the parse returns an
error and no flattened list — independently of the toolchain descriptor,
which `parse_compiler_checks` never consults — and whenever the target
triple is recognized the failure is specifically a `predicateError`. -/
theorem C4_malformed_predicate_fatal (api : CfgExpr.Api) (target : String)
    (l : List (String × ManifestCompiler.Constraint)) (k : String)
    (m : List (String × ManifestCompiler.Condition))
    (hmem : (k, ManifestCompiler.Constraint.Cfg m) ∈ l)
    (hbad : api.parseExpression k = none) :
    (∃ e, ManifestCompiler.parse_compiler_checks api target l = .error e) ∧
    (∀ ti, api.get_builtin_target_by_triple target = some ti →
      ∃ k', api.parseExpression k' = none ∧
        ManifestCompiler.parse_compiler_checks api target l =
          .error (.predicateError k')) := by
  constructor
  · exact (ManifestCompiler.parse_compiler_checks_error_iff api target l).mpr
      ⟨(k, .Cfg m), hmem, by simp [ManifestCompiler.entryBad, hbad]⟩
  · intro ti hti
    exact ManifestCompiler.parse_error_is_predicateError_of_malformed
      api target ti hti k m l hmem hbad

/-- Witness for C4: a manifest whose scoped key `not-a-predicate` does not
parse fails with exactly `predicateError "not-a-predicate"` on a recognized
target, whatever the toolchain descriptor would have been. -/
theorem C4_malformed_predicate_fatal_witness :
    ("not-a-predicate", ManifestCompiler.Constraint.Cfg [("x", condAlways)]) ∈
      [("foo", ManifestCompiler.Constraint.Condition condAlways),
       ("not-a-predicate",
         ManifestCompiler.Constraint.Cfg [("x", condAlways)])] ∧
    demoApi.parseExpression "not-a-predicate" = none ∧
    (∃ k', demoApi.parseExpression k' = none ∧
      ManifestCompiler.parse_compiler_checks demoApi
          "x86_64-unknown-linux-gnu"
          [("foo", .Condition condAlways),
           ("not-a-predicate", .Cfg [("x", condAlways)])] =
        .error (.predicateError k')) :=
  ⟨List.Mem.tail _ (List.Mem.head _), rfl,
   (C4_malformed_predicate_fatal demoApi "x86_64-unknown-linux-gnu"
      [("foo", .Condition condAlways),
       ("not-a-predicate", .Cfg [("x", condAlways)])]
      "not-a-predicate" [("x", condAlways)]
      (List.Mem.tail _ (List.Mem.head _)) rfl).2
     ⟨"x86_64-unknown-linux-gnu"⟩ rfl⟩

/-- A cfg-expr api in which every key parses to an always-true predicate and
no triple is a recognized target. -/
def apiNoTarget : CfgExpr.Api :=
  ⟨fun _ => some ⟨fun _ => true⟩, fun _ => none⟩

/-- Counterexample for C2: in `parse` from `src/lib.rs`, an unrecognized
target triple does not abort the evaluation — the platform-scoped group is
silently treated as non-matching and the direct entry's pair is still
returned, a partial (in fact complete) flattened result. -/
theorem C2_unknown_target_counterexample :
    Lib.parse apiNoTarget "x86_65-unknown-freax-gna"
        [("foo", .Condition ⟨some reqAny, none⟩),
         ("cfg(target_os = \"linux\")", .Cfg [("bar", ⟨some reqAny, none⟩)])] =
      .ok [("foo", ⟨some reqAny, none⟩)] := rfl

/-- C2 (amended): the two pipelines disagree about an unrecognized target
triple.  `parse_compiler_checks` (src/manifest/compiler.rs) aborts with a
fatal error on any manifest containing a platform-scoped group, producing no
flattened pairs at all; but `parse` (src/lib.rs) lets an unrecognized target
make every platform-scoped predicate evaluate false, silently skips each
group, and completes with exactly the direct entries' pairs (provided every
group key parses as a predicate). -/
theorem C2_unknown_target_two_policies (api : CfgExpr.Api) (target : String)
    (ht : api.get_builtin_target_by_triple target = none) :
    (∀ (l : List (String × ManifestCompiler.Constraint))
        (k : String) (m : List (String × ManifestCompiler.Condition)),
      (k, ManifestCompiler.Constraint.Cfg m) ∈ l →
      ∃ e, ManifestCompiler.parse_compiler_checks api target l = .error e) ∧
    (∀ l : List (String × Lib.Constraint),
      (∀ (k : String) (m : List (String × Lib.Condition)),
        (k, Lib.Constraint.Cfg m) ∈ l →
          ∃ cfg, api.parseExpression k = some cfg) →
      Lib.parse api target l = .ok (l.flatMap fun x =>
        match x with
        | (k, .Condition c) => [(k, c)]
        | (_, .Cfg _) => [])) := by
  constructor
  · intro l k m hmem
    refine (ManifestCompiler.parse_compiler_checks_error_iff api target l).mpr
      ⟨(k, .Cfg m), hmem, ?_⟩
    simp only [ManifestCompiler.entryBad]
    cases hp : api.parseExpression k with
    | none => rfl
    | some cfg => simp [ht]
  · intro l
    induction l with
    | nil => intro _; rfl
    | cons x rest ih =>
      intro hall
      obtain ⟨k, v⟩ := x
      have hrest := fun k' m' hm => hall k' m' (List.mem_cons_of_mem _ hm)
      cases v with
      | Condition c =>
        simp [Lib.parse, ih hrest, Except.map]
      | Cfg m =>
        obtain ⟨cfg, hcfg⟩ := hall k m (List.mem_cons_self _ _)
        simp [Lib.parse, hcfg, ht, ih hrest]

/-- Witness for C2 (amended): with no recognized target, the newer parser
aborts on a manifest holding a scoped group, while the older parser returns
the direct entry of a mixed manifest. -/
theorem C2_unknown_target_two_policies_witness :
    apiNoTarget.get_builtin_target_by_triple "x86_65-unknown-freax-gna"
        = none ∧
    (∃ e, ManifestCompiler.parse_compiler_checks apiNoTarget
        "x86_65-unknown-freax-gna"
        [("cfg(target_os = \"linux\")", .Cfg [("bar", condAlways)])] =
      .error e) ∧
    Lib.parse apiNoTarget "x86_65-unknown-freax-gna"
        [("foo", .Condition ⟨some reqAny, none⟩)] =
      .ok [("foo", ⟨some reqAny, none⟩)] :=
  ⟨rfl,
   (C2_unknown_target_two_policies apiNoTarget "x86_65-unknown-freax-gna"
      rfl).1 _ "cfg(target_os = \"linux\")" [("bar", condAlways)]
     (List.Mem.head _),
   (C2_unknown_target_two_policies apiNoTarget "x86_65-unknown-freax-gna"
      rfl).2 [("foo", .Condition ⟨some reqAny, none⟩)]
     (fun k m hm => by cases hm with
       | tail _ h => cases h)⟩

/-- Counterexample for C5: the very same manifest content — the same two
direct entries, presented in the two iteration orders a Rust `HashMap` may
yield for it — produces two different ordered output lists, so the ordered
output is not a function of (manifest text, target triple, toolchain
descriptor) alone. -/
theorem C5_iteration_order_counterexample :
    ([("a", ManifestCompiler.Constraint.Condition condAlways),
      ("b", ManifestCompiler.Constraint.Condition condAlways)]).Perm
      [("b", ManifestCompiler.Constraint.Condition condAlways),
       ("a", ManifestCompiler.Constraint.Condition condAlways)] ∧
    ManifestCompiler.parse_compiler_checks apiAllFalse "t"
        [("a", .Condition condAlways), ("b", .Condition condAlways)] =
      .ok [("a", condAlways), ("b", condAlways)] ∧
    ManifestCompiler.parse_compiler_checks apiAllFalse "t"
        [("b", .Condition condAlways), ("a", .Condition condAlways)] =
      .ok [("b", condAlways), ("a", condAlways)] ∧
    Compiler.emitChecks stable100 [("a", condAlways), ("b", condAlways)] =
      ["cargo:rustc-cfg=a", "cargo:rustc-cfg=b"] ∧
    Compiler.emitChecks stable100 [("b", condAlways), ("a", condAlways)] =
      ["cargo:rustc-cfg=b", "cargo:rustc-cfg=a"] ∧
    (["cargo:rustc-cfg=a", "cargo:rustc-cfg=b"] : List String) ≠
      ["cargo:rustc-cfg=b", "cargo:rustc-cfg=a"] :=
  ⟨List.Perm.swap _ _ _, rfl, rfl, rfl, rfl, by decide⟩

/-- C5 (amended): the pipeline is deterministic only relative to the map
iteration order, which for a Rust `HashMap` is not determined by the
manifest text.  Any two iteration orders of the same manifest (permutations
of the same entries) agree on success versus failure, and on success their
ordered outputs are permutations of each other — the same multiset of
directives; the order itself can differ between two evaluations of the same
(manifest text, target triple, toolchain descriptor). -/
theorem C5_deterministic_up_to_iteration_order (api : CfgExpr.Api)
    (target : String) (rustc : Rustc.VersionData)
    (l l' : List (String × ManifestCompiler.Constraint))
    (hperm : l.Perm l') :
    ((∃ e, ManifestCompiler.parse_compiler_checks api target l = .error e) ↔
      (∃ e, ManifestCompiler.parse_compiler_checks api target l'
        = .error e)) ∧
    (∀ r r',
      ManifestCompiler.parse_compiler_checks api target l = .ok r →
      ManifestCompiler.parse_compiler_checks api target l' = .ok r' →
      (Compiler.emitChecks rustc r).Perm (Compiler.emitChecks rustc r')) := by
  constructor
  · rw [ManifestCompiler.parse_compiler_checks_error_iff,
      ManifestCompiler.parse_compiler_checks_error_iff]
    exact ⟨fun ⟨x, hx, hb⟩ => ⟨x, hperm.mem_iff.mp hx, hb⟩,
           fun ⟨x, hx, hb⟩ => ⟨x, hperm.mem_iff.mpr hx, hb⟩⟩
  · intro r r' hr hr'
    have hgood : ∀ x ∈ l, ManifestCompiler.entryBad api target x = false := by
      intro x hx
      cases hxb : ManifestCompiler.entryBad api target x with
      | false => rfl
      | true =>
        obtain ⟨e, he⟩ :=
          (ManifestCompiler.parse_compiler_checks_error_iff api target l).mpr
            ⟨x, hx, hxb⟩
        rw [hr] at he
        cases he
    have hgood' : ∀ x ∈ l', ManifestCompiler.entryBad api target x = false :=
      fun x hx => hgood x (hperm.mem_iff.mpr hx)
    have h1 :=
      ManifestCompiler.parse_compiler_checks_ok_of_not_bad api target l hgood
    have h2 :=
      ManifestCompiler.parse_compiler_checks_ok_of_not_bad api target l'
        hgood'
    rw [hr] at h1
    rw [hr'] at h2
    have hr1 : r = l.flatMap (ManifestCompiler.entryContrib api target) := by
      injection h1
    have hr2 : r' = l'.flatMap (ManifestCompiler.entryContrib api target) := by
      injection h2
    subst hr1
    subst hr2
    rw [Compiler.emitChecks_eq_filter_map, Compiler.emitChecks_eq_filter_map]
    exact ((hperm.flatMap_right _).filter _).map _

/-- Witness for C5 (amended): the two iteration orders of the two-entry
manifest yield outputs that are permutations of each other. -/
theorem C5_deterministic_up_to_iteration_order_witness :
    ([("a", ManifestCompiler.Constraint.Condition condAlways),
      ("b", ManifestCompiler.Constraint.Condition condAlways)]).Perm
      [("b", ManifestCompiler.Constraint.Condition condAlways),
       ("a", ManifestCompiler.Constraint.Condition condAlways)] ∧
    (Compiler.emitChecks stable100
        [("a", condAlways), ("b", condAlways)]).Perm
      (Compiler.emitChecks stable100
        [("b", condAlways), ("a", condAlways)]) :=
  ⟨List.Perm.swap _ _ _,
   (C5_deterministic_up_to_iteration_order apiAllFalse "t" stable100
      [("a", .Condition condAlways), ("b", .Condition condAlways)]
      [("b", .Condition condAlways), ("a", .Condition condAlways)]
      (List.Perm.swap _ _ _)).2 _ _ rfl rfl⟩

/-- C8: in the emission loop of `src/lib.rs`, a satisfied condition that
carries an explicit override name `cfg` emits the directive with the
override name instead of the declaration key; when no override is declared,
the flag name is derived from the capability key as
`compiler_support_<key>`. -/
theorem C8_override_name_used (name : String) (c : Lib.Condition)
    (ver : Semver.Version) (rest : List (String × Lib.Condition))
    (hc : c.check ver = true) :
    (∀ ovr, c.cfg = some ovr →
      Lib.emitChecks ver ((name, c) :: rest) =
        ("cargo:rustc-cfg=" ++ ovr) :: Lib.emitChecks ver rest) ∧
    (c.cfg = none →
      Lib.emitChecks ver ((name, c) :: rest) =
        ("cargo:rustc-cfg=" ++ ("compiler_support_" ++ name)) ::
          Lib.emitChecks ver rest) := by
  constructor
  · intro ovr hovr
    simp [Lib.emitChecks, hc, hovr, Option.getD]
  · intro hnone
    simp [Lib.emitChecks, hc, hnone, Option.getD]

/-- Witness for C8: the satisfied condition declared under key `foo` with
override name `can_do_stuff` emits `cargo:rustc-cfg=can_do_stuff`, not a
directive mentioning `foo`. -/
theorem C8_override_name_used_witness :
    Lib.Condition.check ⟨some reqAny, some "can_do_stuff"⟩ ⟨1, 0, 0⟩
        = true ∧
    Lib.emitChecks ⟨1, 0, 0⟩
        [("foo", ⟨some reqAny, some "can_do_stuff"⟩)] =
      ["cargo:rustc-cfg=" ++ "can_do_stuff"] :=
  ⟨rfl,
   (C8_override_name_used "foo" ⟨some reqAny, some "can_do_stuff"⟩
      ⟨1, 0, 0⟩ [] rfl).1 "can_do_stuff" rfl⟩
